import Mathlib

/-!
Shallow embedding of the blog-list backend (dzabeligan/blog-list).

Embedded source files:
* `utils/list_helper` (given as `src/unnamed/part_000`): the statistics
  engine `totalLikes`, `favoriteBlog`, `mostBlogs`, `mostLikes`.
* `controllers/blogs.js`: the create / delete / add-comment route handlers.
* `models/user.js`, `models/comment.js`: record shapes.

Mongo ObjectIds are modelled as natural numbers below `16 ^ 24` (an ObjectId
is 12 bytes).  Two distinct string renderings of an ObjectId occur in the
source and both are modelled: `ObjectId.prototype.toString()` yields the
24-character lowercase hex string (`toHex24`), while accessing the `.id`
property yields the raw 12-byte buffer, whose `.toString()` UTF-8 decoding
is a string of at most 12 characters (`bufDecode`).  The delete handler
compares `b.id.toString()` against the hex route parameter, so this
distinction is load-bearing.
-/

/-- Lowercase hex digit character, as produced by Node's hex rendering:
`0`–`9` then `a`–`f`. -/
def hexDigitChar (d : Nat) : Char :=
  if d < 10 then Char.ofNat (48 + d) else Char.ofNat (87 + d)

/-- `ObjectId.prototype.toString()`: the 24-character lowercase hex rendering
of a 12-byte ObjectId, most significant digit first. -/
def toHex24 (n : Nat) : String :=
  String.mk ((List.range 24).map (fun i => hexDigitChar (n / 16 ^ (23 - i) % 16)))

/-- One byte of the raw ObjectId buffer decoded as a character.  Node's
UTF-8 decoding maps an ASCII byte to itself and anything else to at most one
character; only the length bound (at most 12 characters, hence never equal to
a 24-character hex string) matters for the proofs. -/
def bufDecodeChar (b : Nat) : Char :=
  if b < 128 then Char.ofNat b else Char.ofNat 0xFFFD

/-- `oid.id.toString()`: UTF-8 decoding of the raw 12-byte buffer backing an
ObjectId.  A 12-character string, never a 24-character hex string. -/
def bufDecode (n : Nat) : String :=
  String.mk ((List.range 12).map (fun i => bufDecodeChar (n / 256 ^ (11 - i) % 256)))

/-! ## Statistics engine (`src/unnamed/part_000`) -/

/-- A plain blog record as consumed by the statistics helpers: the JSON shape
with mongo's `_id` and `__v` bookkeeping fields. -/
structure StatBlog where
  _id : Nat
  __v : Nat
  title : String
  author : String
  url : String
  likes : Int
deriving DecidableEq

/-- Result shape of `favoriteBlog`: the destructuring
`const { _id, __v, url, ...maxBlog } = ...` keeps exactly title, author and
likes. -/
structure FavBlog where
  title : String
  author : String
  likes : Int
deriving DecidableEq

/-- Result shape of `mostBlogs`: `{ author, blogs }`. -/
structure AuthorCount where
  author : String
  blogs : Nat
deriving DecidableEq

/-- Result shape of `mostLikes`: `{ author, likes }`. -/
structure AuthorLikes where
  author : String
  likes : Int
deriving DecidableEq

/-- `totalLikes`: `blogs.reduce((sum, blog) => sum + blog.likes, 0)`. -/
def totalLikes (blogs : List StatBlog) : Int :=
  blogs.foldl (fun sum blog => sum + blog.likes) 0

/-- The reducer of `favoriteBlog`:
`(previousBlog, currentBlog) => previousBlog.likes > currentBlog.likes ? previousBlog : currentBlog`. -/
def favReducer (previousBlog currentBlog : StatBlog) : StatBlog :=
  if previousBlog.likes > currentBlog.likes then previousBlog else currentBlog

/-- `favoriteBlog`: `null` on the empty list, otherwise `reduce` without an
initial value (so the fold starts from the head), then strip `_id`, `__v`
and `url` by destructuring. -/
def favoriteBlog (blogs : List StatBlog) : Option FavBlog :=
  match blogs with
  | [] => none
  | b :: bs =>
    let maxBlog := bs.foldl favReducer b
    some ⟨maxBlog.title, maxBlog.author, maxBlog.likes⟩

/-- One step of lodash's `countBy('author')`: bump the count stored under the
blog's author key, inserting the key at the end when it is new (JS object
string keys enumerate in insertion order). -/
def bumpAuthor (acc : List (String × Nat)) (b : StatBlog) : List (String × Nat) :=
  match acc with
  | [] => [(b.author, 1)]
  | (a, n) :: rest =>
    if a = b.author then (a, n + 1) :: rest else (a, n) :: bumpAuthor rest b

/-- `_.countBy(blogs, 'author')` as an insertion-ordered association list. -/
def countByAuthor (blogs : List StatBlog) : List (String × Nat) :=
  blogs.foldl bumpAuthor []

/-- One step of lodash's `groupBy('author')`: append the blog to the group
stored under its author key, inserting the key at the end when it is new. -/
def pushAuthor (acc : List (String × List StatBlog)) (b : StatBlog) :
    List (String × List StatBlog) :=
  match acc with
  | [] => [(b.author, [b])]
  | (a, g) :: rest =>
    if a = b.author then (a, g ++ [b]) :: rest else (a, g) :: pushAuthor rest b

/-- `_.groupBy(blogs, 'author')` as an insertion-ordered association list. -/
def groupByAuthor (blogs : List StatBlog) : List (String × List StatBlog) :=
  blogs.foldl pushAuthor []

/-- The ascending comparison used by `sortBy('blogs')`. -/
def byBlogs (x y : AuthorCount) : Prop := x.blogs ≤ y.blogs

instance : DecidableRel byBlogs := fun x y => Nat.decLe x.blogs y.blogs

instance : IsTotal AuthorCount byBlogs := ⟨fun x y => Nat.le_total x.blogs y.blogs⟩

instance : IsTrans AuthorCount byBlogs := ⟨fun _ _ _ => Nat.le_trans⟩

/-- The ascending comparison used by `sortBy('likes')`. -/
def byLikes (x y : AuthorLikes) : Prop := x.likes ≤ y.likes

instance : DecidableRel byLikes := fun x y => Int.decLe x.likes y.likes

instance : IsTotal AuthorLikes byLikes := ⟨fun x y => Int.le_total x.likes y.likes⟩

instance : IsTrans AuthorLikes byLikes := ⟨fun _ _ _ => Int.le_trans⟩

/-- `mostBlogs`: `null` on the empty list, else
`_.chain(blogs).countBy('author').map((blogs, author) => ({author, blogs})).sortBy('blogs').last()`.
Lodash's `sortBy` is a stable ascending sort, modelled by `List.insertionSort`. -/
def mostBlogs (blogs : List StatBlog) : Option AuthorCount :=
  match blogs with
  | [] => none
  | _ :: _ =>
    (List.insertionSort byBlogs
      ((countByAuthor blogs).map (fun p => ⟨p.1, p.2⟩))).getLast?

/-- `mostLikes`: `null` on the empty list, else
`_.chain(blogs).groupBy('author').map((obj, key) => ({author: key, likes: _.sumBy(obj, 'likes')})).sortBy('likes').last()`. -/
def mostLikes (blogs : List StatBlog) : Option AuthorLikes :=
  match blogs with
  | [] => none
  | _ :: _ =>
    (List.insertionSort byLikes
      ((groupByAuthor blogs).map
        (fun p => ⟨p.1, (p.2.map StatBlog.likes).sum⟩))).getLast?

/-- Number of blogs in `l` by a given author (the intended value of one
`countBy` entry). -/
def countAuthor (l : List StatBlog) (a : String) : Nat :=
  l.countP (fun b => b.author = a)

/-- Total likes in `l` of a given author (the intended value of one
`groupBy`-then-`sumBy` entry). -/
def likesOfAuthor (l : List StatBlog) (a : String) : Int :=
  ((l.filter (fun b => b.author = a)).map StatBlog.likes).sum

/-! ## Data model of the mutation service

`models/blog.js` is not among the given sources; the `Blog` record shape is
modelled from the spec (§3) together with the fields the controller writes
(`title`, `author`, `url`, `likes`, `user`, `comments`).  `models/user.js`
and `models/comment.js` are given and embedded directly.  ObjectIds are
naturals (12-byte values, so `< 16 ^ 24` for well-formed stores). -/

/-- Modelled from the spec: `models/blog.js` is missing from the sources; a
persisted Blog per §3 and the controller's writes. `user` is the owning
User's ObjectId, `comments` the ordered Comment references. -/
structure Blog where
  _id : Nat
  title : String
  author : String
  url : String
  likes : Int
  user : Nat
  comments : List Nat
deriving DecidableEq

/-- `models/user.js`: the fields the blog handlers touch (`blogs` is the
array of owned Blog ObjectIds). -/
structure User where
  _id : Nat
  username : String
  name : String
  passwordHash : String
  blogs : List Nat
deriving DecidableEq

/-- `models/comment.js`: `comment` is an optional string with
`minlength: 2`, `blog` references the owning Blog. -/
structure Comment where
  _id : Nat
  comment : Option String
  blog : Nat
deriving DecidableEq

/-- The persistent store: the three mongo collections. -/
structure Db where
  users : List User
  blogs : List Blog
  comments : List Comment
deriving DecidableEq

/-- A bearer token as the handlers see it.  `raw` is the token string
(`request.token`, set by the token-extractor middleware, which is not under
the given sources: its output is taken as the handler input, per the spec's
Authorization Guard).  `wellSigned` abstracts `jwt.verify` succeeding:
well-formed, signed by `process.env.SECRET`, not expired.  `payloadId` is
the decoded `id` claim; `none` stands for an absent or falsy claim. -/
structure Jwt where
  raw : String
  wellSigned : Bool
  payloadId : Option Nat
deriving DecidableEq

/-- Result of `jwt.verify(request.token, process.env.SECRET)`: either a
thrown `JsonWebTokenError` or the decoded payload's `id` claim. -/
inductive VerifyResult where
  | throw
  | ok (payloadId : Option Nat)
deriving DecidableEq

/-- `jwt.verify(request.token, SECRET)`: throws when the token is absent
(`undefined`), empty, or fails signature/expiry verification; otherwise
returns the decoded payload. -/
def jwtVerify : Option Jwt → VerifyResult
  | none => .throw
  | some j => if j.raw = "" then .throw else if j.wellSigned then .ok j.payloadId else .throw

/-- JS truthiness of `request.token`: falsy when absent or the empty
string. -/
def tokenFalsy : Option Jwt → Bool
  | none => true
  | some j => j.raw = ""

/-- Observable outcome of one handler run.  The first six constructors are
responses the handler sends itself; the last three are errors thrown inside
the handler (`jwt.verify`, a `null` dereference, `mongoose` validation on
`save`), surfaced by the express error-handling layer. -/
inductive Outcome where
  | created (blog : Blog)
  | updatedBlog (blog : Blog)
  | noContent
  | tokenMissingInvalid
  | onlyCreator
  | badRequest
  | jwtError
  | typeError
  | validationError
deriving DecidableEq

/-- Modelled from the spec: the error-handling middleware
(`utils/middleware.js` is not under the given sources) maps thrown errors to
statuses per §7 — `AuthFailure` (a `JsonWebTokenError`) to the 401 class,
`ValidationError` to the 400 class; an unrecognised thrown error (the
`TypeError` from a `null` dereference) falls through to express's 500. -/
def statusOf : Outcome → Nat
  | .created _ => 201
  | .updatedBlog _ => 200
  | .noContent => 204
  | .tokenMissingInvalid => 401
  | .onlyCreator => 401
  | .badRequest => 400
  | .jwtError => 401
  | .typeError => 500
  | .validationError => 400

/-- Request body of `POST /api/blogs`.  A missing or empty `title`/`url` is
falsy in the handler's guard; both cases are modelled by `""`.  `likes` is
optional. -/
structure PostBody where
  title : String
  author : String
  url : String
  likes : Option Int
deriving DecidableEq

/-- `body.likes || 0`: `0` when the field is absent (and `0 || 0` is `0`,
so a present field always contributes its value). -/
def likesOrZero : Option Int → Int
  | none => 0
  | some v => v

/-- `User.save()`: replace the stored document with the given `_id`. -/
def saveUser (users : List User) (u : User) : List User :=
  users.map (fun v => if v._id = u._id then u else v)

/-- `POST /api/blogs` (`blogsRouter.post('/')`).  `freshId` is the ObjectId
mongo generates for the new Blog.  Steps, in source order:
`jwt.verify`; the guard `if (!request.token || !decodedToken.id)` (the two
disjuncts answer the same 401, so they are matched jointly);
`if (!body.title || !body.url)` answering a bare 400; `User.findById`
(a `null` user makes `user._id` throw a `TypeError`); build and save the
Blog; append its id to `user.blogs` and save the user; answer 201 with the
saved Blog. -/
def blogsPost (db : Db) (token : Option Jwt) (body : PostBody) (freshId : Nat) :
    Outcome × Db :=
  match jwtVerify token with
  | .throw => (.jwtError, db)
  | .ok payloadId =>
    match payloadId with
    | none => (.tokenMissingInvalid, db)
    | some uid =>
      if tokenFalsy token then (.tokenMissingInvalid, db)
      else if body.title = "" ∨ body.url = "" then (.badRequest, db)
      else
        match db.users.find? (fun u => u._id = uid) with
        | none => (.typeError, db)
        | some user =>
          let savedBlog : Blog :=
            { _id := freshId, title := body.title, author := body.author,
              url := body.url, likes := likesOrZero body.likes,
              user := user._id, comments := [] }
          let user' : User := { user with blogs := user.blogs ++ [freshId] }
          (.created savedBlog,
            { db with blogs := db.blogs ++ [savedBlog],
                      users := saveUser db.users user' })

/-- `DELETE /api/blogs/:id` (`blogsRouter.delete('/:id')`).  `pid` is the
route parameter, arriving as the hex string `toHex24 pid`.  Steps, in source
order: `jwt.verify`; the 401 guard; `User.findById` and `Blog.findById`;
`blog.user.toString() !== user.id.toString()` (a `null` blog throws first,
at `blog.user`, then a `null` user at `user.id`); `blog.remove()`; then
`user.blogs.filter((b) => b.id.toString() !== request.params.id.toString())`
— note `b.id` is the raw buffer, so the kept predicate is
`bufDecode b ≠ toHex24 pid`; save the user; answer 204. -/
def blogsDelete (db : Db) (token : Option Jwt) (pid : Nat) : Outcome × Db :=
  match jwtVerify token with
  | .throw => (.jwtError, db)
  | .ok payloadId =>
    match payloadId with
    | none => (.tokenMissingInvalid, db)
    | some uid =>
      if tokenFalsy token then (.tokenMissingInvalid, db)
      else
        match db.blogs.find? (fun b => b._id = pid),
              db.users.find? (fun u => u._id = uid) with
        | none, _ => (.typeError, db)
        | some _, none => (.typeError, db)
        | some blog, some user =>
          if toHex24 blog.user ≠ toHex24 user._id then (.onlyCreator, db)
          else
            let user' : User :=
              { user with blogs :=
                  user.blogs.filter (fun b => bufDecode b ≠ toHex24 pid) }
            (.noContent,
              { db with blogs := db.blogs.filter (fun b => ¬ b._id = blog._id),
                        users := saveUser db.users user' })

/-- `mongoose` validation of a Comment on `save`: `minlength: 2` rejects a
present `comment` value shorter than 2 characters (an absent optional field
is not validated). -/
def commentTooShort : Option String → Bool
  | none => false
  | some s => s.length < 2

/-- `POST /api/blogs/:id/comments` (`blogsRouter.post('/:id/comments')`).
No authentication.  Steps, in source order: `Blog.findById` (a `null` blog
makes `blog._id` throw a `TypeError`); build the Comment from the body and
the blog's id; append its id to the in-memory blog's `comments`;
`comment.save()` (throws `ValidationError` before anything is persisted when
the text is too short); `Blog.findByIdAndUpdate(id, blog, {new: true})`
persisting the updated blog; answer with the updated blog. -/
def blogsPostComment (db : Db) (pid : Nat) (text : Option String)
    (freshId : Nat) : Outcome × Db :=
  match db.blogs.find? (fun b => b._id = pid) with
  | none => (.typeError, db)
  | some blog =>
    let comment : Comment := { _id := freshId, comment := text, blog := blog._id }
    let blog' : Blog := { blog with comments := blog.comments ++ [freshId] }
    if commentTooShort text then (.validationError, db)
    else
      (.updatedBlog blog',
        { db with comments := db.comments ++ [comment],
                  blogs := db.blogs.map (fun b => if b._id = pid then blog' else b) })

/-! ## Concrete fixtures used by closed evaluation theorems and witnesses -/

/-- A stored user owning blog `2`. -/
def sampleUser : User :=
  { _id := 1, username := "root", name := "Root", passwordHash := "h", blogs := [2] }

/-- A stored blog owned by user `1`. -/
def sampleBlog : Blog :=
  { _id := 2, title := "React patterns", author := "Michael Chan",
    url := "https://reactpatterns.com/", likes := 7, user := 1, comments := [] }

/-- A store holding `sampleUser` and `sampleBlog`. -/
def sampleDb : Db := { users := [sampleUser], blogs := [sampleBlog], comments := [] }

/-- A verified bearer token whose subject is user `1`. -/
def sampleTok : Option Jwt := some { raw := "tok", wellSigned := true, payloadId := some 1 }

/-- A well-formed create body. -/
def samplePostBody : PostBody := { title := "T", author := "A", url := "U", likes := none }

/-- A blog owned by some other user (`5`, not `sampleUser`). -/
def otherBlog : Blog :=
  { _id := 3, title := "X", author := "Y", url := "https://x.example/",
    likes := 1, user := 5, comments := [] }

/-- A store in which the only blog belongs to a user other than the token's
subject. -/
def dbWithForeign : Db := { users := [sampleUser], blogs := [otherBlog], comments := [] }

/-- Statistics fixture: Ann's first post, 5 likes. -/
def statA : StatBlog :=
  { _id := 1, __v := 0, title := "A", author := "Ann", url := "ua", likes := 5 }

/-- Statistics fixture: Bob's post, 5 likes (ties `statA`). -/
def statB : StatBlog :=
  { _id := 2, __v := 0, title := "B", author := "Bob", url := "ub", likes := 5 }

/-- Statistics fixture: Ann's second post, 3 likes. -/
def statC : StatBlog :=
  { _id := 3, __v := 0, title := "C", author := "Ann", url := "uc", likes := 3 }

/-- Proof-side invariant of the insertion-ordered grouping folds
(`countByAuthor`, `groupByAuthor`): the accumulator's keys are exactly the
authors of the processed list, without duplicates, and each entry's value is
the `γ`-fold over that author's blogs in list order, seeded by `ι` on the
first one. -/
def EntriesOk {β : Type} (ι : StatBlog → β) (γ : β → StatBlog → β)
    (l : List StatBlog) (acc : List (String × β)) : Prop :=
  (acc.map Prod.fst).Nodup ∧
  (∀ a : String, a ∈ acc.map Prod.fst ↔ a ∈ l.map StatBlog.author) ∧
  (∀ p ∈ acc, ∃ b rest, l.filter (fun x => x.author = p.1) = b :: rest ∧
    p.2 = rest.foldl γ (ι b))

/-! ## Lemmas about the two ObjectId renderings -/

theorem toHex24_length (n : Nat) : (toHex24 n).length = 24 := by
  simp [toHex24, String.length]

theorem bufDecode_length (n : Nat) : (bufDecode n).length = 12 := by
  simp [bufDecode, String.length]

/-- The buffer decoding of one ObjectId is never the hex rendering of
another: the former has 12 characters, the latter 24.  This is why the
delete handler's `filter` keeps every element of `user.blogs`. -/
theorem bufDecode_ne_toHex24 (m n : Nat) : bufDecode m ≠ toHex24 n := by
  intro h
  have := congrArg String.length h
  rw [bufDecode_length, toHex24_length] at this
  omega

theorem hexDigitChar_inj {d e : Nat} (hd : d < 16) (he : e < 16)
    (h : hexDigitChar d = hexDigitChar e) : d = e := by
  interval_cases d <;> interval_cases e <;> revert h <;> decide

/-- Two naturals with equal base-16 digits below position `k` agree modulo
`16 ^ k`. -/
theorem eq_mod_pow_of_digits_eq :
    ∀ (k m n : Nat), (∀ j, j < k → m / 16 ^ j % 16 = n / 16 ^ j % 16) →
      m % 16 ^ k = n % 16 ^ k
  | 0, _, _, _ => by simp [Nat.mod_one]
  | k + 1, m, n, h => by
    have h0 : m % 16 = n % 16 := by simpa using h 0 (Nat.succ_pos k)
    have ih : m / 16 % 16 ^ k = n / 16 % 16 ^ k := by
      refine eq_mod_pow_of_digits_eq k (m / 16) (n / 16) (fun j hj => ?_)
      have e : 16 * 16 ^ j = 16 ^ (j + 1) := by rw [Nat.pow_succ, Nat.mul_comm]
      simp only [Nat.div_div_eq_div_mul]
      rw [e]
      exact h (j + 1) (by omega)
    have e : 16 ^ (k + 1) = 16 * 16 ^ k := by rw [Nat.pow_succ, Nat.mul_comm]
    calc m % 16 ^ (k + 1) = m % (16 * 16 ^ k) := by rw [e]
      _ = m % 16 + 16 * (m / 16 % 16 ^ k) := Nat.mod_mul
      _ = n % 16 + 16 * (n / 16 % 16 ^ k) := by rw [h0, ih]
      _ = n % (16 * 16 ^ k) := Nat.mod_mul.symm
      _ = n % 16 ^ (k + 1) := by rw [e]

/-- The hex rendering is injective on 12-byte values, so the delete
handler's ownership comparison `blog.user.toString() !== user.id.toString()`
decides exactly equality of the two ObjectIds. -/
theorem toHex24_inj {m n : Nat} (hm : m < 16 ^ 24) (hn : n < 16 ^ 24)
    (h : toHex24 m = toHex24 n) : m = n := by
  have hlist : (List.range 24).map (fun i => hexDigitChar (m / 16 ^ (23 - i) % 16)) =
      (List.range 24).map (fun i => hexDigitChar (n / 16 ^ (23 - i) % 16)) := by
    have h2 := congrArg String.data h
    simpa [toHex24] using h2
  have hdig : ∀ j, j < 24 → m / 16 ^ j % 16 = n / 16 ^ j % 16 := by
    intro j hj
    have hi : 23 - j < 24 := by omega
    have h1 := congrArg (fun l => l[23 - j]?) hlist
    simp only [List.getElem?_map, List.getElem?_range, hi, if_true, Option.map_some'] at h1
    have hj' : 23 - (23 - j) = j := by omega
    rw [hj'] at h1
    exact hexDigitChar_inj (Nat.mod_lt _ (by omega)) (Nat.mod_lt _ (by omega))
      (by simpa using h1)
  have := eq_mod_pow_of_digits_eq 24 m n hdig
  rwa [Nat.mod_eq_of_lt hm, Nat.mod_eq_of_lt hn] at this

/-! ## Lemmas about the authorization flow -/

/-- Whenever `jwt.verify` returns instead of throwing, the raw token was a
present, nonempty string — so `!request.token` is false. -/
theorem tokenFalsy_of_verify_ok {tok : Option Jwt} {p : Option Nat}
    (h : jwtVerify tok = VerifyResult.ok p) : tokenFalsy tok = false := by
  cases tok with
  | none => simp [jwtVerify] at h
  | some j =>
    by_cases hr : j.raw = ""
    · simp [jwtVerify, hr] at h
    · simp [tokenFalsy, hr]

/-! ## Claims about the mutation service -/

/-- C1: the claim's delete half fails on the code.  Deleting blog `2`, owned
by user `1`, with user `1`'s valid credential answers 204 and removes the
Blog, yet `2` is still a member of the former owner's `blogs`: the filter
compares the buffer decoding `b.id.toString()` (12 characters) against the
24-character hex route parameter, so it keeps every element.  After this
successful delete, `User.blogs` is not `\x7b ids of Blogs owned \x7d`. -/
theorem c1_delete_leaves_stale_blogId :
    (blogsDelete sampleDb sampleTok 2).1 = Outcome.noContent ∧
    (blogsDelete sampleDb sampleTok 2).2.blogs = [] ∧
    ∃ u ∈ (blogsDelete sampleDb sampleTok 2).2.users,
      u._id = sampleUser._id ∧ 2 ∈ u.blogs := by
  decide

/-- C2: deleting a nonexistent id (`99` is in no store collection) with a
valid credential does not answer 204: `Blog.findById` yields `null` and
`blog.user` throws a `TypeError` (a 500-class failure), with the store left
unchanged.  This contradicts the claimed idempotent no-op (and the repo's
own test `blog with a non existing valid id does, redundant delete`). -/
theorem c2_delete_missing_id_throws :
    blogsDelete sampleDb sampleTok 99 = (Outcome.typeError, sampleDb) ∧
    Outcome.typeError ≠ Outcome.noContent ∧
    statusOf Outcome.typeError = 500 := by
  decide

/-- C3: a create or delete request whose bearer credential is absent
(`tok = none`), malformed/unsigned/expired (`wellSigned = false`), or the
empty string makes `jwt.verify` throw a `JsonWebTokenError` before any store
access: the outcome is exactly the 401 auth failure and the store is
unchanged. -/
theorem c3_auth_failure_401 (db : Db) (tok : Option Jwt) (body : PostBody)
    (fid pid : Nat)
    (h : tok = none ∨ ∃ j, tok = some j ∧ (j.raw = "" ∨ j.wellSigned = false)) :
    blogsPost db tok body fid = (Outcome.jwtError, db) ∧
    blogsDelete db tok pid = (Outcome.jwtError, db) ∧
    statusOf Outcome.jwtError = 401 := by
  have hv : jwtVerify tok = VerifyResult.throw := by
    rcases h with h | ⟨j, rfl, hj⟩
    · simp [h, jwtVerify]
    · rcases hj with hj | hj <;> simp [jwtVerify, hj]
  refine ⟨?_, ?_, rfl⟩
  · unfold blogsPost
    rw [hv]
  · unfold blogsDelete
    rw [hv]

/-- Witness for C3 at a concrete absent credential. -/
theorem c3_auth_failure_401_witness :
    blogsPost sampleDb none samplePostBody 5 = (Outcome.jwtError, sampleDb) ∧
    blogsDelete sampleDb none 2 = (Outcome.jwtError, sampleDb) ∧
    statusOf Outcome.jwtError = 401 := by
  simpa using c3_auth_failure_401 sampleDb none samplePostBody 5 2 (Or.inl rfl)

/-- C4: a delete request with a valid credential whose subject `uid` is not
the target blog's owner answers the explicit 401 `Forbidden` branch
(`only the creator can delete blogs`) and leaves the store untouched, the
blog still present. -/
theorem c4_delete_foreign_forbidden (db : Db) (tok : Option Jwt) (pid uid : Nat)
    (user : User) (blog : Blog)
    (hv : jwtVerify tok = VerifyResult.ok (some uid))
    (hu : db.users.find? (fun u => u._id = uid) = some user)
    (hb : db.blogs.find? (fun b => b._id = pid) = some blog)
    (hbu : blog.user < 16 ^ 24) (hui : user._id < 16 ^ 24)
    (hne : blog.user ≠ user._id) :
    blogsDelete db tok pid = (Outcome.onlyCreator, db) ∧
    statusOf Outcome.onlyCreator = 401 ∧
    blog ∈ db.blogs := by
  have hf : tokenFalsy tok = false := tokenFalsy_of_verify_ok hv
  have hhex : toHex24 blog.user ≠ toHex24 user._id := fun hcontra =>
    hne (toHex24_inj hbu hui hcontra)
  refine ⟨?_, rfl, List.mem_of_find?_eq_some hb⟩
  simp [blogsDelete, hv, hf, hu, hb, hhex]

/-- Witness for C4: user `1` tries to delete user `5`'s blog `3`. -/
theorem c4_delete_foreign_forbidden_witness :
    blogsDelete dbWithForeign sampleTok 3 = (Outcome.onlyCreator, dbWithForeign) ∧
    statusOf Outcome.onlyCreator = 401 ∧
    otherBlog ∈ dbWithForeign.blogs :=
  c4_delete_foreign_forbidden dbWithForeign sampleTok 3 1 sampleUser otherBlog
    (by decide) (by decide) (by decide) (by decide) (by decide) (by decide)

/-- C5: with a valid credential resolving to a stored user, a body with
non-empty title and url and no likes field creates a blog with `likes = 0`
(appended to the store, its id appended to the owner's `blogs`), while a
missing/empty title or url answers a bare 400 before anything is written. -/
theorem c5_create_default_likes_and_400 (db : Db) (tok : Option Jwt)
    (body : PostBody) (fid uid : Nat) (user : User)
    (hv : jwtVerify tok = VerifyResult.ok (some uid))
    (hu : db.users.find? (fun u => u._id = uid) = some user) :
    ((body.title ≠ "" ∧ body.url ≠ "" ∧ body.likes = none) →
      blogsPost db tok body fid =
        (Outcome.created
            { _id := fid, title := body.title, author := body.author,
              url := body.url, likes := 0, user := user._id, comments := [] },
          { db with
              blogs := db.blogs ++
                [{ _id := fid, title := body.title, author := body.author,
                   url := body.url, likes := 0, user := user._id, comments := [] }],
              users := saveUser db.users { user with blogs := user.blogs ++ [fid] } })) ∧
    ((body.title = "" ∨ body.url = "") →
      blogsPost db tok body fid = (Outcome.badRequest, db) ∧
      statusOf Outcome.badRequest = 400) := by
  have hf : tokenFalsy tok = false := tokenFalsy_of_verify_ok hv
  constructor
  · rintro ⟨ht, hurl, hlikes⟩
    simp [blogsPost, hv, hf, hu, ht, hurl, hlikes, likesOrZero]
  · intro hbad
    refine ⟨?_, rfl⟩
    rcases hbad with hbad | hbad <;> simp [blogsPost, hv, hf, hbad]

/-- Witness for C5: both halves at concrete inputs. -/
theorem c5_create_default_likes_and_400_witness :
    blogsPost sampleDb sampleTok samplePostBody 7 =
      (Outcome.created
          { _id := 7, title := "T", author := "A", url := "U", likes := 0,
            user := 1, comments := [] },
        { sampleDb with
            blogs := sampleDb.blogs ++
              [{ _id := 7, title := "T", author := "A", url := "U", likes := 0,
                 user := 1, comments := [] }],
            users := saveUser sampleDb.users
              { sampleUser with blogs := sampleUser.blogs ++ [7] } }) ∧
    blogsPost sampleDb sampleTok { samplePostBody with title := "" } 7 =
      (Outcome.badRequest, sampleDb) :=
  ⟨(c5_create_default_likes_and_400 sampleDb sampleTok samplePostBody 7 1 sampleUser
      (by decide) (by decide)).1 ⟨by decide, by decide, rfl⟩,
   ((c5_create_default_likes_and_400 sampleDb sampleTok
      { samplePostBody with title := "" } 7 1 sampleUser
      (by decide) (by decide)).2 (Or.inl rfl)).1⟩

/-- C6: adding a comment to a stored blog fails with the mongoose
`ValidationError` (400) and leaves the store unchanged when the text is
shorter than 2 characters; with valid text it persists exactly one new
Comment referencing the blog, appends its id to the blog's `comments`, and
the returned blog's comment list grows by exactly one. -/
theorem c6_add_comment (db : Db) (pid fid : Nat) (blog : Blog) (s : String)
    (hb : db.blogs.find? (fun b => b._id = pid) = some blog) :
    (s.length < 2 →
      blogsPostComment db pid (some s) fid = (Outcome.validationError, db) ∧
      statusOf Outcome.validationError = 400) ∧
    (2 ≤ s.length →
      blogsPostComment db pid (some s) fid =
        (Outcome.updatedBlog { blog with comments := blog.comments ++ [fid] },
          { db with
              comments := db.comments ++
                [{ _id := fid, comment := some s, blog := blog._id }],
              blogs := db.blogs.map (fun b =>
                if b._id = pid then { blog with comments := blog.comments ++ [fid] }
                else b) }) ∧
      ({ blog with comments := blog.comments ++ [fid] } : Blog).comments.length =
        blog.comments.length + 1) := by
  constructor
  · intro hshort
    refine ⟨?_, rfl⟩
    simp [blogsPostComment, hb, commentTooShort, hshort]
  · intro hlong
    have hnot : ¬ s.length < 2 := by omega
    refine ⟨?_, by simp⟩
    simp [blogsPostComment, hb, commentTooShort, hnot]

/-- Witness for C6: both halves at concrete inputs. -/
theorem c6_add_comment_witness :
    blogsPostComment sampleDb 2 (some "x") 9 = (Outcome.validationError, sampleDb) ∧
    blogsPostComment sampleDb 2 (some "ok") 9 =
      (Outcome.updatedBlog { sampleBlog with comments := sampleBlog.comments ++ [9] },
        { sampleDb with
            comments := sampleDb.comments ++
              [{ _id := 9, comment := some "ok", blog := sampleBlog._id }],
            blogs := sampleDb.blogs.map (fun b =>
              if b._id = 2 then { sampleBlog with comments := sampleBlog.comments ++ [9] }
              else b) }) :=
  ⟨((c6_add_comment sampleDb 2 9 sampleBlog "x" (by decide)).1 (by decide)).1,
   ((c6_add_comment sampleDb 2 9 sampleBlog "ok" (by decide)).2 (by decide)).1⟩

/-- C10: the explicit 401 `token missing or invalid` branch of the create
and delete handlers answers exactly the requests whose token verifies but
decodes without an `id` claim; the `!request.token` disjunct is dead
because a returning `jwt.verify` forces a present nonempty token. -/
theorem c10_dead_token_disjunct :
    (∀ (tok : Option Jwt) (p : Option Nat),
      jwtVerify tok = VerifyResult.ok p → tokenFalsy tok = false) ∧
    (∀ (db : Db) (tok : Option Jwt) (body : PostBody) (fid : Nat),
      (blogsPost db tok body fid).1 = Outcome.tokenMissingInvalid ↔
        jwtVerify tok = VerifyResult.ok none) ∧
    (∀ (db : Db) (tok : Option Jwt) (pid : Nat),
      (blogsDelete db tok pid).1 = Outcome.tokenMissingInvalid ↔
        jwtVerify tok = VerifyResult.ok none) := by
  refine ⟨fun tok p h => tokenFalsy_of_verify_ok h, ?_, ?_⟩
  · intro db tok body fid
    rcases hv : jwtVerify tok with _ | payloadId
    · simp [blogsPost, hv]
    · rcases payloadId with _ | uid
      · simp [blogsPost, hv]
      · have hf := tokenFalsy_of_verify_ok hv
        by_cases hbad : body.title = "" ∨ body.url = ""
        · simp [blogsPost, hv, hf, hbad]
        · rcases hfind : db.users.find? (fun u => u._id = uid) with _ | user
          · simp [blogsPost, hv, hf, hbad, hfind]
          · simp [blogsPost, hv, hf, hbad, hfind]
  · intro db tok pid
    rcases hv : jwtVerify tok with _ | payloadId
    · simp [blogsDelete, hv]
    · rcases payloadId with _ | uid
      · simp [blogsDelete, hv]
      · have hf := tokenFalsy_of_verify_ok hv
        rcases hfb : db.blogs.find? (fun b => b._id = pid) with _ | blog
        · simp [blogsDelete, hv, hf, hfb]
        · rcases hfu : db.users.find? (fun u => u._id = uid) with _ | user
          · simp [blogsDelete, hv, hf, hfb, hfu]
          · by_cases hhex : toHex24 blog.user ≠ toHex24 user._id
            · simp [blogsDelete, hv, hf, hfb, hfu, hhex]
            · simp [blogsDelete, hv, hf, hfb, hfu, hhex]

/-- Witness for C10 at a concrete verified token. -/
theorem c10_dead_token_disjunct_witness : tokenFalsy sampleTok = false :=
  c10_dead_token_disjunct.1 sampleTok (some 1) (by decide)

/-! ## Claims about the statistics engine -/

theorem totalLikes_foldl (l : List StatBlog) (s : Int) :
    l.foldl (fun sum blog => sum + blog.likes) s = s + (l.map StatBlog.likes).sum := by
  induction l generalizing s with
  | nil => simp
  | cons b bs ih =>
    rw [List.foldl_cons, ih, List.map_cons, List.sum_cons]
    ring

/-- C8: `totalLikes` is `0` on the empty list, sums the `likes` fields, and
is invariant under permutation of the input. -/
theorem c8_totalLikes_sum_perm (l l' : List StatBlog) (h : l.Perm l') :
    totalLikes [] = 0 ∧
    totalLikes l = (l.map StatBlog.likes).sum ∧
    totalLikes l = totalLikes l' := by
  have key : ∀ m : List StatBlog, totalLikes m = (m.map StatBlog.likes).sum := fun m => by
    simpa [totalLikes] using totalLikes_foldl m 0
  exact ⟨rfl, key l, by rw [key l, key l', (h.map StatBlog.likes).sum_eq]⟩

/-- Witness for C8 at the spec's own example values (5 and 3 likes). -/
theorem c8_totalLikes_sum_perm_witness :
    totalLikes [] = 0 ∧
    totalLikes [statA, statC] = ([statA, statC].map StatBlog.likes).sum ∧
    totalLikes [statA, statC] = totalLikes [statC, statA] :=
  c8_totalLikes_sum_perm [statA, statC] [statC, statA] (by decide)

theorem mem_cons_append_singleton {α : Type _} {x b c : α} {l : List α}
    (hx : x ∈ b :: (l ++ [c])) : x ∈ b :: l ∨ x = c := by
  rcases List.mem_cons.1 hx with h1 | h1
  · exact Or.inl (h1 ▸ List.mem_cons_self _ _)
  · rcases List.mem_append.1 h1 with h2 | h2
    · exact Or.inl (List.mem_cons_of_mem _ h2)
    · exact Or.inr (List.mem_singleton.1 h2)

/-- The `favoriteBlog` fold returns the last maximal element: an element of
maximal `likes` that is strictly above every element after it (on a tie the
reducer keeps the current element, not the previous one). -/
theorem favFold_lastMax (l : List StatBlog) (b : StatBlog) :
    ∃ l₁ m l₂, b :: l = l₁ ++ m :: l₂ ∧
      (∀ x ∈ b :: l, x.likes ≤ m.likes) ∧
      (∀ x ∈ l₂, x.likes < m.likes) ∧
      l.foldl favReducer b = m := by
  induction l using List.reverseRecOn with
  | nil =>
    refine ⟨[], b, [], rfl, ?_, by simp, rfl⟩
    intro x hx
    rw [List.mem_singleton.1 hx]
  | append_singleton l c ih =>
    obtain ⟨l₁, m, l₂, heq, hmax, hstrict, hfold⟩ := ih
    have hfold' : (l ++ [c]).foldl favReducer b = favReducer m c := by
      rw [List.foldl_append, hfold]
      rfl
    by_cases hc : m.likes > c.likes
    · have hr : favReducer m c = m := by simp [favReducer, hc]
      refine ⟨l₁, m, l₂ ++ [c], ?_, ?_, ?_, by rw [hfold', hr]⟩
      · have h2 : b :: (l ++ [c]) = (b :: l) ++ [c] := by simp
        rw [h2, heq]
        simp
      · intro x hx
        rcases mem_cons_append_singleton hx with hx | rfl
        · exact hmax x hx
        · exact le_of_lt hc
      · intro x hx
        rcases List.mem_append.1 hx with hx | hx
        · exact hstrict x hx
        · rw [List.mem_singleton.1 hx]
          exact hc
    · have hr : favReducer m c = c := by simp [favReducer, hc]
      have hmc : m.likes ≤ c.likes := le_of_not_lt hc
      refine ⟨b :: l, c, [], by simp, ?_, by simp, by rw [hfold', hr]⟩
      intro x hx
      rcases mem_cons_append_singleton hx with hx | rfl
      · exact le_trans (hmax x hx) hmc
      · exact le_refl _

/-- C7 (amended): `favoriteBlog` is `none` on the empty list and otherwise
returns — with `_id`, `__v` and `url` stripped — the LAST maximal element:
maximal `likes` overall and strictly above everything after it.  (The claim
said ties resolve toward the earlier element; the reducer's strict `>`
makes the later element win, see the counterexample.) -/
theorem c7_favoriteBlog_last_max (l : List StatBlog) (h : l ≠ []) :
    favoriteBlog [] = none ∧
    ∃ l₁ m l₂, l = l₁ ++ m :: l₂ ∧
      (∀ x ∈ l, x.likes ≤ m.likes) ∧
      (∀ x ∈ l₂, x.likes < m.likes) ∧
      favoriteBlog l = some ⟨m.title, m.author, m.likes⟩ := by
  refine ⟨rfl, ?_⟩
  match l, h with
  | b :: bs, _ =>
    obtain ⟨l₁, m, l₂, heq, hmax, hstrict, hfold⟩ := favFold_lastMax bs b
    exact ⟨l₁, m, l₂, heq, hmax, hstrict, by simp [favoriteBlog, hfold]⟩

/-- Counterexample for C7 as stated: on a likes tie (`statA` then `statB`,
both 5 likes) the result is the LATER record's fields, not the first
maximal element's. -/
theorem c7_counterexample :
    favoriteBlog [statA, statB] = some { title := "B", author := "Bob", likes := 5 } ∧
    some { title := "B", author := "Bob", likes := 5 } ≠
      some ({ title := "A", author := "Ann", likes := 5 } : FavBlog) := by
  decide

/-- Witness for C7's amended theorem on a singleton list. -/
theorem c7_favoriteBlog_last_max_witness :
    favoriteBlog [] = none ∧
    ∃ l₁ m l₂, [statA] = l₁ ++ m :: l₂ ∧
      (∀ x ∈ [statA], x.likes ≤ m.likes) ∧
      (∀ x ∈ l₂, x.likes < m.likes) ∧
      favoriteBlog [statA] = some ⟨m.title, m.author, m.likes⟩ :=
  c7_favoriteBlog_last_max [statA] (by decide)

/-! ## The grouping folds behind `mostBlogs` and `mostLikes` -/

theorem step_insert_new {β : Type} (ι : StatBlog → β) (γ : β → StatBlog → β)
    (step : List (String × β) → StatBlog → List (String × β))
    (hnil : ∀ b, step [] b = [(b.author, ι b)])
    (hcons : ∀ a v rest b, step ((a, v) :: rest) b =
      if a = b.author then (a, γ v b) :: rest else (a, v) :: step rest b)
    (acc : List (String × β)) (c : StatBlog)
    (hnew : c.author ∉ acc.map Prod.fst) :
    step acc c = acc ++ [(c.author, ι c)] := by
  induction acc with
  | nil => simpa using hnil c
  | cons p rest ih =>
    obtain ⟨a, v⟩ := p
    simp only [List.map_cons, List.mem_cons, not_or] at hnew
    rw [hcons, if_neg (fun h => hnew.1 h.symm), ih hnew.2]
    simp

theorem step_update_existing {β : Type} (ι : StatBlog → β) (γ : β → StatBlog → β)
    (step : List (String × β) → StatBlog → List (String × β))
    (_hnil : ∀ b, step [] b = [(b.author, ι b)])
    (hcons : ∀ a v rest b, step ((a, v) :: rest) b =
      if a = b.author then (a, γ v b) :: rest else (a, v) :: step rest b)
    (acc : List (String × β)) (c : StatBlog)
    (hnodup : (acc.map Prod.fst).Nodup) (hold : c.author ∈ acc.map Prod.fst) :
    step acc c = acc.map (fun p => if p.1 = c.author then (p.1, γ p.2 c) else p) := by
  induction acc with
  | nil => simp at hold
  | cons p rest ih =>
    obtain ⟨a, v⟩ := p
    simp only [List.map_cons, List.nodup_cons] at hnodup
    by_cases ha : a = c.author
    · rw [hcons, if_pos ha, List.map_cons]
      have hrest_id : rest.map (fun p => if p.1 = c.author then (p.1, γ p.2 c) else p) =
          rest := by
        have hpt : ∀ p ∈ rest, (if p.1 = c.author then (p.1, γ p.2 c) else p) = p := by
          intro p hp
          rw [if_neg]
          intro hpc
          exact hnodup.1 (by rw [ha, ← hpc]; exact List.mem_map_of_mem Prod.fst hp)
        rw [List.map_congr_left hpt]
        simp
      rw [hrest_id]
      simp [ha]
    · have hold' : c.author ∈ rest.map Prod.fst := by
        simp only [List.map_cons, List.mem_cons] at hold
        rcases hold with h | h
        · exact absurd h.symm ha
        · exact h
      rw [hcons, if_neg ha, ih hnodup.2 hold', List.map_cons]
      congr 1
      rw [if_neg ha]

theorem entriesOk_foldl {β : Type} (ι : StatBlog → β) (γ : β → StatBlog → β)
    (step : List (String × β) → StatBlog → List (String × β))
    (hnil : ∀ b, step [] b = [(b.author, ι b)])
    (hcons : ∀ a v rest b, step ((a, v) :: rest) b =
      if a = b.author then (a, γ v b) :: rest else (a, v) :: step rest b)
    (l : List StatBlog) :
    EntriesOk ι γ l (l.foldl step []) := by
  induction l using List.reverseRecOn with
  | nil => exact ⟨by simp, by simp, by simp⟩
  | append_singleton l c ih =>
    obtain ⟨hnodup, hkeys, hvals⟩ := ih
    have hstep : (l ++ [c]).foldl step [] = step (l.foldl step []) c := by
      rw [List.foldl_append]
      rfl
    set acc := l.foldl step [] with hacc
    by_cases hmem : c.author ∈ acc.map Prod.fst
    · rw [hstep, step_update_existing ι γ step hnil hcons acc c hnodup hmem]
      have hkeys_pres :
          ((acc.map (fun p => if p.1 = c.author then (p.1, γ p.2 c) else p)).map
            Prod.fst) = acc.map Prod.fst := by
        rw [List.map_map]
        apply List.map_congr_left
        intro p _
        by_cases hp : p.1 = c.author <;> simp [hp]
      refine ⟨by rw [hkeys_pres]; exact hnodup, ?_, ?_⟩
      · intro a
        rw [hkeys_pres, hkeys a, List.map_append]
        simp only [List.map_cons, List.map_nil, List.mem_append,
          List.mem_singleton, List.mem_cons, List.not_mem_nil, or_false]
        constructor
        · exact Or.inl
        · rintro (h | rfl)
          · exact h
          · exact (hkeys _).1 hmem
      · intro p' hp'
        obtain ⟨p, hp, rfl⟩ := List.mem_map.1 hp'
        by_cases hpc : p.1 = c.author
        · obtain ⟨b, rest, hfil, hval⟩ := hvals p hp
          rw [if_pos hpc]
          refine ⟨b, rest ++ [c], ?_, ?_⟩
          · rw [List.filter_append, hfil]
            simp [hpc.symm]
          · rw [List.foldl_append, ← hval]
            rfl
        · obtain ⟨b, rest, hfil, hval⟩ := hvals p hp
          rw [if_neg hpc]
          refine ⟨b, rest, ?_, hval⟩
          rw [List.filter_append, hfil]
          have : c.author ≠ p.1 := fun h => hpc h.symm
          simp [this]
    · rw [hstep, step_insert_new ι γ step hnil hcons acc c hmem]
      have hfilnil : l.filter (fun x => x.author = c.author) = [] := by
        rw [List.filter_eq_nil_iff]
        intro x hx
        simp only [decide_eq_true_eq]
        intro hxa
        exact hmem ((hkeys c.author).2 (by rw [← hxa]; exact List.mem_map_of_mem _ hx))
      refine ⟨?_, ?_, ?_⟩
      · rw [List.map_append]
        simp only [List.map_cons, List.map_nil]
        rw [List.nodup_append]
        refine ⟨hnodup, List.nodup_singleton _, ?_⟩
        intro a haider hb
        simp only [List.mem_singleton] at hb
        subst hb
        exact hmem haider
      · intro a
        rw [List.map_append]
        simp only [List.map_cons, List.map_nil, List.mem_append, List.mem_singleton]
        rw [hkeys a]
        rw [List.map_append]
        simp
      · intro p hp
        rcases List.mem_append.1 hp with hp | hp
        · obtain ⟨b, rest, hfil, hval⟩ := hvals p hp
          refine ⟨b, rest, ?_, hval⟩
          rw [List.filter_append, hfil]
          have hne : c.author ≠ p.1 := by
            intro h
            exact hmem (by rw [h]; exact List.mem_map_of_mem Prod.fst hp)
          simp [hne]
        · simp only [List.mem_singleton] at hp
          subst hp
          refine ⟨c, [], ?_, rfl⟩
          rw [List.filter_append, hfilnil]
          simp

theorem countByAuthor_entries (l : List StatBlog) :
    EntriesOk (fun _ => 1) (fun n _ => n + 1) l (countByAuthor l) :=
  entriesOk_foldl _ _ bumpAuthor (fun _ => rfl) (fun _ _ _ _ => rfl) l

theorem groupByAuthor_entries (l : List StatBlog) :
    EntriesOk (fun b => [b]) (fun g b => g ++ [b]) l (groupByAuthor l) :=
  entriesOk_foldl _ _ pushAuthor (fun _ => rfl) (fun _ _ _ _ => rfl) l

theorem foldl_count (g : List StatBlog) (k : Nat) :
    g.foldl (fun n _ => n + 1) k = k + g.length := by
  induction g generalizing k with
  | nil => simp
  | cons x xs ih =>
    rw [List.foldl_cons, ih]
    simp [List.length_cons]
    omega

theorem foldl_push (g : List StatBlog) (init : List StatBlog) :
    g.foldl (fun acc x => acc ++ [x]) init = init ++ g := by
  induction g generalizing init with
  | nil => simp
  | cons x xs ih =>
    rw [List.foldl_cons, ih]
    simp

theorem countByAuthor_keys (l : List StatBlog) (a : String) :
    a ∈ (countByAuthor l).map Prod.fst ↔ a ∈ l.map StatBlog.author :=
  (countByAuthor_entries l).2.1 a

theorem groupByAuthor_keys (l : List StatBlog) (a : String) :
    a ∈ (groupByAuthor l).map Prod.fst ↔ a ∈ l.map StatBlog.author :=
  (groupByAuthor_entries l).2.1 a

theorem countByAuthor_value (l : List StatBlog) (p : String × Nat)
    (hp : p ∈ countByAuthor l) : p.2 = countAuthor l p.1 := by
  obtain ⟨b, rest, hfil, hval⟩ := (countByAuthor_entries l).2.2 p hp
  have h1 : p.2 = 1 + rest.length := by
    rw [hval]
    exact foldl_count rest 1
  have h2 : countAuthor l p.1 = rest.length + 1 := by
    rw [countAuthor, List.countP_eq_length_filter, hfil, List.length_cons]
  omega

theorem groupByAuthor_value (l : List StatBlog) (p : String × List StatBlog)
    (hp : p ∈ groupByAuthor l) :
    (p.2.map StatBlog.likes).sum = likesOfAuthor l p.1 := by
  obtain ⟨b, rest, hfil, hval⟩ := (groupByAuthor_entries l).2.2 p hp
  rw [hval, foldl_push, likesOfAuthor, hfil]
  rfl

theorem sorted_getLast_max {α : Type _} {r : α → α → Prop} :
    ∀ (l : List α) (hl : l ≠ []), List.Sorted r l →
      ∀ x ∈ l, x = l.getLast hl ∨ r x (l.getLast hl)
  | [], hl, _, _, _ => absurd rfl hl
  | [_], _, _, _, hx => Or.inl (by simpa using hx)
  | a :: b :: t, _, hs, x, hx => by
    have hne : b :: t ≠ [] := by simp
    rw [List.getLast_cons hne]
    rcases List.mem_cons.1 hx with rfl | hx'
    · exact Or.inr (List.rel_of_sorted_cons hs _ (List.getLast_mem hne))
    · exact sorted_getLast_max (b :: t) hne hs.of_cons x hx'

theorem insertionSort_getLast_max {α : Type _} (r : α → α → Prop) [DecidableRel r]
    [IsTotal α r] [IsTrans α r] (l : List α) (hl : l ≠ []) :
    ∃ m, (List.insertionSort r l).getLast? = some m ∧ m ∈ l ∧
      ∀ x ∈ l, x = m ∨ r x m := by
  have hperm := List.perm_insertionSort r l
  have hne : List.insertionSort r l ≠ [] := by
    intro h0
    apply hl
    have hlen := hperm.length_eq
    rw [h0] at hlen
    exact List.eq_nil_of_length_eq_zero hlen.symm
  refine ⟨(List.insertionSort r l).getLast hne, List.getLast?_eq_getLast _ hne,
    hperm.subset (List.getLast_mem hne), ?_⟩
  intro x hx
  exact sorted_getLast_max _ hne (List.sorted_insertionSort r l) x
    (hperm.mem_iff.2 hx)

/-- When one author strictly has the most posts, `mostBlogs` returns that
author with their count. -/
theorem mostBlogs_of_strict_max (l : List StatBlog) (a : String) (hl : l ≠ [])
    (ha : a ∈ l.map StatBlog.author)
    (hs : ∀ b ∈ l.map StatBlog.author, b ≠ a → countAuthor l b < countAuthor l a) :
    mostBlogs l = some ⟨a, countAuthor l a⟩ := by
  obtain ⟨x, xs, rfl⟩ : ∃ x xs, l = x :: xs := by
    cases l with
    | nil => exact absurd rfl hl
    | cons x xs => exact ⟨x, xs, rfl⟩
  set C : List AuthorCount :=
    (countByAuthor (x :: xs)).map (fun p => ⟨p.1, p.2⟩) with hC
  have hCfacts : ∀ e ∈ C, e.author ∈ (x :: xs).map StatBlog.author ∧
      e.blogs = countAuthor (x :: xs) e.author := by
    intro e he
    rw [hC] at he
    obtain ⟨p, hp, rfl⟩ := List.mem_map.1 he
    exact ⟨(countByAuthor_keys _ _).1 (List.mem_map_of_mem Prod.fst hp),
      countByAuthor_value _ p hp⟩
  have hexists : ∃ e ∈ C, e.author = a ∧ e.blogs = countAuthor (x :: xs) a := by
    obtain ⟨p, hp, hpa⟩ := List.mem_map.1 ((countByAuthor_keys _ a).2 ha)
    refine ⟨⟨p.1, p.2⟩, List.mem_map_of_mem _ hp, hpa, ?_⟩
    rw [countByAuthor_value _ p hp, hpa]
  have hCne : C ≠ [] := by
    intro h0
    obtain ⟨e, he, _⟩ := hexists
    rw [h0] at he
    exact absurd he (List.not_mem_nil e)
  obtain ⟨m, hlast, hmem, hmax⟩ := insertionSort_getLast_max byBlogs C hCne
  obtain ⟨hma_mem, hmb⟩ := hCfacts m hmem
  obtain ⟨e, heC, hea, heb⟩ := hexists
  have hle : e.blogs ≤ m.blogs := by
    rcases hmax e heC with rfl | hr
    · exact le_refl _
    · exact hr
  have hma : m.author = a := by
    by_contra hne
    have hlt := hs m.author hma_mem hne
    omega
  have hm_eq : m = ⟨a, countAuthor (x :: xs) a⟩ := by
    have h2 : m.blogs = countAuthor (x :: xs) a := by rw [hmb, hma]
    calc m = ⟨m.author, m.blogs⟩ := rfl
    _ = ⟨a, countAuthor (x :: xs) a⟩ := by rw [hma, h2]
  show (List.insertionSort byBlogs C).getLast? = some ⟨a, countAuthor (x :: xs) a⟩
  rw [hlast, hm_eq]

/-- When one author strictly has the greatest likes total, `mostLikes`
returns that author with their total. -/
theorem mostLikes_of_strict_max (l : List StatBlog) (a : String) (hl : l ≠ [])
    (ha : a ∈ l.map StatBlog.author)
    (hs : ∀ b ∈ l.map StatBlog.author, b ≠ a →
      likesOfAuthor l b < likesOfAuthor l a) :
    mostLikes l = some ⟨a, likesOfAuthor l a⟩ := by
  obtain ⟨x, xs, rfl⟩ : ∃ x xs, l = x :: xs := by
    cases l with
    | nil => exact absurd rfl hl
    | cons x xs => exact ⟨x, xs, rfl⟩
  set C : List AuthorLikes :=
    (groupByAuthor (x :: xs)).map (fun p => ⟨p.1, (p.2.map StatBlog.likes).sum⟩)
    with hC
  have hCfacts : ∀ e ∈ C, e.author ∈ (x :: xs).map StatBlog.author ∧
      e.likes = likesOfAuthor (x :: xs) e.author := by
    intro e he
    rw [hC] at he
    obtain ⟨p, hp, rfl⟩ := List.mem_map.1 he
    exact ⟨(groupByAuthor_keys _ _).1 (List.mem_map_of_mem Prod.fst hp),
      groupByAuthor_value _ p hp⟩
  have hexists : ∃ e ∈ C, e.author = a ∧ e.likes = likesOfAuthor (x :: xs) a := by
    obtain ⟨p, hp, hpa⟩ := List.mem_map.1 ((groupByAuthor_keys _ a).2 ha)
    refine ⟨⟨p.1, (p.2.map StatBlog.likes).sum⟩, List.mem_map_of_mem _ hp, hpa, ?_⟩
    rw [groupByAuthor_value _ p hp, hpa]
  have hCne : C ≠ [] := by
    intro h0
    obtain ⟨e, he, _⟩ := hexists
    rw [h0] at he
    exact absurd he (List.not_mem_nil e)
  obtain ⟨m, hlast, hmem, hmax⟩ := insertionSort_getLast_max byLikes C hCne
  obtain ⟨hma_mem, hmb⟩ := hCfacts m hmem
  obtain ⟨e, heC, hea, heb⟩ := hexists
  have hle : e.likes ≤ m.likes := by
    rcases hmax e heC with rfl | hr
    · exact le_refl _
    · exact hr
  have hma : m.author = a := by
    by_contra hne
    have hlt := hs m.author hma_mem hne
    omega
  have hm_eq : m = ⟨a, likesOfAuthor (x :: xs) a⟩ := by
    have h2 : m.likes = likesOfAuthor (x :: xs) a := by rw [hmb, hma]
    calc m = ⟨m.author, m.likes⟩ := rfl
    _ = ⟨a, likesOfAuthor (x :: xs) a⟩ := by rw [hma, h2]
  show (List.insertionSort byLikes C).getLast? = some ⟨a, likesOfAuthor (x :: xs) a⟩
  rw [hlast, hm_eq]

theorem countAuthor_perm {l l' : List StatBlog} (h : l.Perm l') (a : String) :
    countAuthor l a = countAuthor l' a := h.countP_eq _

theorem likesOfAuthor_perm {l l' : List StatBlog} (h : l.Perm l') (a : String) :
    likesOfAuthor l a = likesOfAuthor l' a := ((h.filter _).map _).sum_eq

theorem authors_perm {l l' : List StatBlog} (h : l.Perm l') (a : String) :
    a ∈ l.map StatBlog.author ↔ a ∈ l'.map StatBlog.author :=
  (h.map _).mem_iff

/-- C9: with a unique strict maximum author by post count (`a`) and by likes
total (`aL`), `mostBlogs` and `mostLikes` return that author's record, the
value is invariant under permutation of the input, and both functions are
`none` on the empty list. -/
theorem c9_mostBlogs_mostLikes (l l' : List StatBlog) (a aL : String)
    (hp : l.Perm l') (hl : l ≠ [])
    (ha : a ∈ l.map StatBlog.author)
    (hsB : ∀ b ∈ l.map StatBlog.author, b ≠ a →
      countAuthor l b < countAuthor l a)
    (haL : aL ∈ l.map StatBlog.author)
    (hsL : ∀ b ∈ l.map StatBlog.author, b ≠ aL →
      likesOfAuthor l b < likesOfAuthor l aL) :
    mostBlogs l = some ⟨a, countAuthor l a⟩ ∧
    mostBlogs l' = some ⟨a, countAuthor l a⟩ ∧
    mostLikes l = some ⟨aL, likesOfAuthor l aL⟩ ∧
    mostLikes l' = some ⟨aL, likesOfAuthor l aL⟩ ∧
    mostBlogs [] = none ∧ mostLikes [] = none := by
  have hl' : l' ≠ [] := by
    intro h0
    apply hl
    have hlen := hp.length_eq
    rw [h0] at hlen
    exact List.eq_nil_of_length_eq_zero hlen
  have hsB' : ∀ b ∈ l'.map StatBlog.author, b ≠ a →
      countAuthor l' b < countAuthor l' a := by
    intro b hb hne
    rw [← countAuthor_perm hp, ← countAuthor_perm hp]
    exact hsB b ((authors_perm hp b).2 hb) hne
  have hsL' : ∀ b ∈ l'.map StatBlog.author, b ≠ aL →
      likesOfAuthor l' b < likesOfAuthor l' aL := by
    intro b hb hne
    rw [← likesOfAuthor_perm hp, ← likesOfAuthor_perm hp]
    exact hsL b ((authors_perm hp b).2 hb) hne
  refine ⟨mostBlogs_of_strict_max l a hl ha hsB, ?_,
    mostLikes_of_strict_max l aL hl haL hsL, ?_, rfl, rfl⟩
  · rw [mostBlogs_of_strict_max l' a hl' ((authors_perm hp a).1 ha) hsB',
      countAuthor_perm hp]
  · rw [mostLikes_of_strict_max l' aL hl' ((authors_perm hp aL).1 haL) hsL',
      likesOfAuthor_perm hp]

/-- Witness for C9: Ann has 2 posts (8 likes) against Bob's 1 post
(5 likes), on a list and a permutation of it. -/
theorem c9_mostBlogs_mostLikes_witness :
    mostBlogs [statA, statC, statB] =
      some ⟨"Ann", countAuthor [statA, statC, statB] "Ann"⟩ ∧
    mostBlogs [statB, statA, statC] =
      some ⟨"Ann", countAuthor [statA, statC, statB] "Ann"⟩ ∧
    mostLikes [statA, statC, statB] =
      some ⟨"Ann", likesOfAuthor [statA, statC, statB] "Ann"⟩ ∧
    mostLikes [statB, statA, statC] =
      some ⟨"Ann", likesOfAuthor [statA, statC, statB] "Ann"⟩ ∧
    mostBlogs [] = none ∧ mostLikes [] = none :=
  c9_mostBlogs_mostLikes [statA, statC, statB] [statB, statA, statC] "Ann" "Ann"
    (by decide) (by decide) (by decide) (by decide) (by decide) (by decide)
